import Mathlib

/-!
Verification of the request/response correlation engine of the
mcp-mainframe repository.

The development shallowly embeds two parts of the code base:

* `SQSClient._wait_for_response` / `SQSClient.send_request`
  (src/servers/ibkr-mcp/src/ibkr_mcp/sqs_client.py): the polling loop is
  modelled as a recursion over a list of `PollEvent`s, one per loop
  iteration.  Each event records what the external transport returned for
  that iteration (`receive_message` raising `ClientError`, or a batch of
  messages), how much wall-clock time the iteration consumed (`dt`, covering
  the long-poll wait and the sleeps), and which best-effort
  `change_message_visibility` calls would have raised (`releaseFailures`,
  which the loop must ignore).  The side effects of a call are captured as a
  list of `SQSAction`s (release / delete / sleep) in the order the source
  performs them.  `json.loads` is modelled by an arbitrary
  `decode : String → Option α` (`none` = `json.JSONDecodeError`).  The
  successful `delete_message` transport call is modelled as succeeding.

* `RateLimiter.acquire`
  (src/servers/onepassword-mcp/src/onepassword_mcp/security.py): modelled as
  a pure function of the recorded last-acquire time and the current
  monotonic clock, with `asyncio.sleep w` advancing the clock by exactly
  `w` (ideal time, single caller inside the lock).
-/

/-- One `MessageAttributes` entry: Python dict `{"StringValue": ...}` where
the `StringValue` key may be absent. -/
structure MsgAttr where
  stringValue : Option String
deriving DecidableEq

/-- An SQS message as seen by `_wait_for_response`: optional
`MessageAttributes` dict, a `Body` string and a `ReceiptHandle`
(represented by a `Nat` token). -/
structure SQSMessage where
  messageAttributes : Option (List (String × MsgAttr))
  body : String
  receiptHandle : Nat
deriving DecidableEq

/-- `message.get("MessageAttributes", {}).get("ExecutionId", {}).get("StringValue")`
(sqs_client.py lines 200-204): `none` when any level is missing. -/
def execIdOf (m : SQSMessage) : Option String :=
  match m.messageAttributes with
  | none => none
  | some attrs =>
    match attrs.find? (fun p => p.1 = "ExecutionId") with
    | none => none
    | some p => p.2.stringValue

/-- `msg_execution_id == execution_id` (line 206); the target is always a
string, so the comparison holds exactly when the attribute is present and
equal. -/
def isMatch (execId : String) (m : SQSMessage) : Bool :=
  execIdOf m == some execId

/-- Observable side effects of one `_wait_for_response` call on the
transport: `change_message_visibility(..., VisibilityTimeout=0)`,
`delete_message`, and `time.sleep`. -/
inductive SQSAction where
  | release (receiptHandle : Nat)
  | delete (receiptHandle : Nat)
  | sleep (seconds : ℚ)
deriving DecidableEq

/-- What `receive_message` produced in one loop iteration: a `ClientError`
(line 186) or a batch of messages (possibly empty). -/
inductive FetchResult where
  | fetchError
  | batch (messages : List SQSMessage)
deriving DecidableEq

/-- The environment's behaviour during one iteration of the polling loop:
the fetch outcome, the wall-clock time `dt` the whole iteration consumed
(long-poll wait plus sleeps), and the receipt handles whose best-effort
release raised `ClientError` (lines 216-217 and 238-239 swallow these). -/
structure PollEvent where
  fetch : FetchResult
  dt : ℚ
  releaseFailures : List Nat
deriving DecidableEq

/-- Terminal outcome of `_wait_for_response`: `return response_data`
(line 228), `raise SQSTimeoutError(... Execution ID: ...)` (lines 245-247),
or the model artifact `outOfTrace` when the supplied event trace ends while
the deadline has not been reached yet. -/
inductive WaitOutcome (α : Type) where
  | matched (payload : α)
  | timedOut (execId : String)
  | outOfTrace
deriving DecidableEq

/-- Result of a `_wait_for_response` call: terminal outcome, emitted
transport/sleep actions in source order, the model clock at the moment the
function returned, and how many poll iterations consumed an event. -/
structure WaitResult (α : Type) where
  outcome : WaitOutcome α
  actions : List SQSAction
  finalTime : ℚ
  consumed : Nat
deriving DecidableEq

/-- Python's two-argument `min` on numbers. -/
def ratMin (a b : ℚ) : ℚ := if a ≤ b then a else b

/-- `poll_delay = min(poll_delay * 1.5, 5.0)` (lines 189, 195, 243). -/
def nextDelay (d : ℚ) : ℚ := ratMin (d * (3 / 2)) 5

/-- The scan over one batch (lines 198-217): `matching_message` is
overwritten by every message whose `ExecutionId` equals the target, and
every non-matching message is released (visibility reset to 0), in batch
order. Returns the final `matching_message` and the release actions. -/
def scanBatch (execId : String) (messages : List SQSMessage) :
    Option SQSMessage × List SQSAction :=
  messages.foldl
    (fun acc m =>
      if isMatch execId m then (some m, acc.2)
      else (acc.1, acc.2 ++ [SQSAction.release m.receiptHandle]))
    (none, [])

/-- The candidate match the scan produces, stated independently of the fold:
the last message in the batch whose correlation-id metadata equals the
target. -/
def lastMatchingMsg (execId : String) (messages : List SQSMessage) :
    Option SQSMessage :=
  messages.reverse.find? (isMatch execId)

/-- What one loop iteration decides: return to the caller with the parsed
payload, or keep waiting after emitting some actions. -/
inductive StepRes (α : Type) where
  | done (out : WaitOutcome α) (acts : List SQSAction)
  | continueWith (acts : List SQSAction)
deriving DecidableEq

/-- One iteration of the polling loop body (lines 179-243), given the fetch
outcome. `ClientError` on fetch: sleep `poll_delay` and retry. Empty batch:
sleep `min(poll_delay, 5.0)` and retry. Otherwise scan the batch; if a
candidate match exists, parse its body: on success delete it and return the
payload, on `JSONDecodeError` release it and keep waiting; with no candidate
just keep waiting. -/
def pollStep (decode : String → Option α) (execId : String)
    (fetch : FetchResult) (pollDelay : ℚ) : StepRes α :=
  match fetch with
  | .fetchError => .continueWith [SQSAction.sleep pollDelay]
  | .batch msgs =>
    if msgs.isEmpty then .continueWith [SQSAction.sleep (ratMin pollDelay 5)]
    else
      match scanBatch execId msgs with
      | (some m, releases) =>
        match decode m.body with
        | some payload =>
          .done (WaitOutcome.matched payload)
            (releases ++ [SQSAction.delete m.receiptHandle])
        | none =>
          .continueWith (releases ++
            [SQSAction.release m.receiptHandle, SQSAction.sleep (ratMin pollDelay 5)])
      | (none, releases) =>
        .continueWith (releases ++ [SQSAction.sleep (ratMin pollDelay 5)])

/-- The `while datetime.now() < timeout` loop of `_wait_for_response`
(lines 178-247).  `now` is the model clock, `pollDelay` the mutable
`poll_delay`; each consumed event advances the clock by its `dt` and the
delay by `nextDelay`.  When the guard fails the loop raises
`SQSTimeoutError` carrying the execution id. -/
def waitLoop (decode : String → Option α) (execId : String) (deadline : ℚ) :
    List PollEvent → ℚ → ℚ → WaitResult α
  | [], now, _ =>
    if now < deadline then ⟨.outOfTrace, [], now, 0⟩
    else ⟨.timedOut execId, [], now, 0⟩
  | e :: rest, now, pollDelay =>
    if now < deadline then
      match pollStep decode execId e.fetch pollDelay with
      | .done out acts => ⟨out, acts, now, 1⟩
      | .continueWith acts =>
        let r := waitLoop decode execId deadline rest (now + e.dt) (nextDelay pollDelay)
        ⟨r.outcome, acts ++ r.actions, r.finalTime, r.consumed + 1⟩
    else ⟨.timedOut execId, [], now, 0⟩

/-- `_wait_for_response(execution_id, timeout_minutes, ...)`
(lines 154-247): the deadline is `start + timedelta(minutes=timeout_minutes)`
with the call starting at model time 0, and `poll_delay` starts at `0.5`
(line 176). -/
def waitForResponse (decode : String → Option α) (execId : String)
    (timeoutMinutes : ℚ) (events : List PollEvent) : WaitResult α :=
  waitLoop decode execId (60 * timeoutMinutes) events 0 (1 / 2)

/-- The sleep durations of an action list, in order. -/
def sleepsOf (acts : List SQSAction) : List ℚ :=
  acts.filterMap fun a =>
    match a with
    | .sleep d => some d
    | _ => none

/-- The receipt handles deleted by an action list, in order. -/
def deletesOf (acts : List SQSAction) : List Nat :=
  acts.filterMap fun a =>
    match a with
    | .delete h => some h
    | _ => none

/-- Messages contained in one fetch outcome. -/
def batchMessages : FetchResult → List SQSMessage
  | .fetchError => []
  | .batch msgs => msgs

/-- All messages a trace ever hands to the poller. -/
def allMessages (events : List PollEvent) : List SQSMessage :=
  events.foldr (fun e acc => batchMessages e.fetch ++ acc) []

/-- The event's batch contains no message matching the target. -/
def eventNoMatch (execId : String) (e : PollEvent) : Prop :=
  ∀ m ∈ batchMessages e.fetch, execIdOf m ≠ some execId

instance (execId : String) (e : PollEvent) : Decidable (eventNoMatch execId e) := by
  unfold eventNoMatch; infer_instance

/-- Total wall-clock time of a trace. -/
def sumDt (events : List PollEvent) : ℚ :=
  (events.map PollEvent.dt).sum

/-- A JSON-serialisable Python value as it appears in a request envelope:
strings for the reserved keys, `raw n` an otherwise-unspecified
JSON payload tagged by a number. -/
inductive PyVal where
  | str (s : String)
  | raw (n : Nat)
deriving DecidableEq

/-- Python `d[k] = v` on an insertion-ordered dict represented as an
association list: overwrite in place when the key exists, append
otherwise. -/
def dictSet (d : List (String × PyVal)) (k : String) (v : PyVal) :
    List (String × PyVal) :=
  if d.any (fun p => p.1 = k) then
    d.map (fun p => if p.1 = k then (k, v) else p)
  else d ++ [(k, v)]

/-- Python `d.update(other)`: each entry of `other`, in order, is written
into `d` with `dictSet` semantics. -/
def dictUpdate (d other : List (String × PyVal)) : List (String × PyVal) :=
  other.foldl (fun acc p => dictSet acc p.1 p.2) d

/-- Python `d.get(k)` / `d[k]`. -/
def dictGet? (d : List (String × PyVal)) (k : String) : Option PyVal :=
  (d.find? (fun p => p.1 = k)).map (fun p => p.2)

/-- The request envelope `send_request` publishes (sqs_client.py lines
129-138): `{"operation": ..., "execution_id": ..., "timestamp": ...}`
then `request.update(params)` when `params` is truthy (a non-empty dict).
`uuid` stands for the `str(uuid4())` draw of this call and `timestamp`
for `datetime.now().isoformat()`. -/
def buildRequest (operation uuid timestamp : String)
    (params : List (String × PyVal)) : List (String × PyVal) :=
  let req := [("operation", PyVal.str operation),
              ("execution_id", PyVal.str uuid),
              ("timestamp", PyVal.str timestamp)]
  if params.isEmpty then req else dictUpdate req params

/-- How a `send_request` call ends: `SQSClientError` raised because
`send_message` raised `ClientError` (lines 142-145), or the outcome of the
subsequent `_wait_for_response`. -/
inductive SendOutcome (α : Type) where
  | channelError
  | ok (outcome : WaitOutcome α)
deriving DecidableEq

/-- `send_request` (lines 100-152): builds the envelope, publishes it
(`publishFails` records whether the transport raised `ClientError` on
`send_message`), and when the publish succeeded waits for the response
matching this call's fresh `uuid`.  Returns the published envelope and the
call's outcome. -/
def sendRequest (decode : String → Option α) (operation : String)
    (params : List (String × PyVal)) (uuid timestamp : String)
    (publishFails : Bool) (timeoutMinutes : ℚ) (events : List PollEvent) :
    List (String × PyVal) × SendOutcome α :=
  let request := buildRequest operation uuid timestamp params
  (request,
   if publishFails then SendOutcome.channelError
   else SendOutcome.ok (waitForResponse decode uuid timeoutMinutes events).outcome)

/-- `RateLimiter.acquire` (security.py lines 108-119) as a function of the
stored `_last_resolve_time` and the `time.monotonic()` reading `now` taken
on entry.  Returns `(wait, newLast)`: the duration passed to
`asyncio.sleep` (0 when no sleep happens) and the new
`_last_resolve_time`, with the second `time.monotonic()` call modelled as
`now + wait` (ideal sleep). -/
def rateLimiterAcquire (minDelay lastResolveTime now : ℚ) : ℚ × ℚ :=
  let elapsed := now - lastResolveTime
  if elapsed < minDelay ∧ 0 < lastResolveTime then
    let waitTime := minDelay - elapsed
    (waitTime, now + waitTime)
  else
    (0, now)

/-- The release actions one batch scan performs: one visibility reset per
non-matching message, in batch order. -/
def releaseActions (execId : String) (messages : List SQSMessage) :
    List SQSAction :=
  (messages.filter fun m => !(isMatch execId m)).map
    fun m => SQSAction.release m.receiptHandle

/-- Replace an event's record of failed releases (used to state that the
loop's behaviour does not depend on them). -/
def setReleaseFailures (f : PollEvent → List Nat) (e : PollEvent) : PollEvent :=
  ⟨e.fetch, e.dt, f e⟩

/- Concrete inputs for the per-claim witnesses and the C1 counterexample. -/

/-- Concrete `json.loads` stand-in: `"A"` parses to payload 1, `"B"` to 2,
anything else is malformed. -/
def c1Decode : String → Option Nat :=
  fun b => if b = "A" then some 1 else if b = "B" then some 2 else none

def c1MsgA : SQSMessage := ⟨some [("ExecutionId", ⟨some "X"⟩)], "A", 1⟩

def c1MsgB : SQSMessage := ⟨some [("ExecutionId", ⟨some "X"⟩)], "B", 2⟩

def c1Other : SQSMessage := ⟨some [("ExecutionId", ⟨some "Y"⟩)], "C", 3⟩

/-- One fetched batch holding two messages that both match `"X"`:
`c1MsgA` (payload 1) first, `c1MsgB` (payload 2) second. -/
def c1Events : List PollEvent := [⟨.batch [c1MsgA, c1MsgB], 1, []⟩]

/-- An empty first batch, then a batch with a non-matching message followed
by two matching ones. -/
def c1WEvents : List PollEvent :=
  [⟨.batch [], 1, []⟩, ⟨.batch [c1Other, c1MsgA, c1MsgB], 1, []⟩]

def c2Decode : String → Option Nat := fun _ => none

/-- A message whose `ExecutionId` is `"Y"`, observed while waiting for
`"X"`. -/
def c2M : SQSMessage := ⟨some [("ExecutionId", ⟨some "Y"⟩)], "body", 7⟩

def c2Events : List PollEvent := [⟨.batch [c2M], 1, []⟩]

def c3Decode : String → Option Nat := fun b => if b = "ok" then some 7 else none

def c3M : SQSMessage := ⟨some [("ExecutionId", ⟨some "X"⟩)], "ok", 4⟩

def c3Bad : SQSMessage := ⟨some [("ExecutionId", ⟨some "X"⟩)], "garbage", 5⟩

def c4Decode : String → Option Nat := fun _ => none

def c4Events : List PollEvent := [⟨.batch [], 1, []⟩]

def c5Decode : String → Option Nat := fun _ => none

def c5Events : List PollEvent := [⟨.batch [], 60, []⟩]

def c7Decode : String → Option Nat := fun b => if b = "ok" then some 5 else none

def c7M : SQSMessage := ⟨some [("ExecutionId", ⟨some "X"⟩)], "ok", 4⟩

def c7Events : List PollEvent := [⟨.batch [c7M], 1, []⟩]

def c8Params : List (String × PyVal) := [("query", PyVal.str "AAPL")]

def c10Decode : String → Option Nat := fun _ => none

/-- A message with no `MessageAttributes` at all. -/
def c10M : SQSMessage := ⟨none, "b", 9⟩

def c10Events : List PollEvent := [⟨.batch [c10M], 1, []⟩]

/-- The actions a step decision emits, whether it returns or keeps
waiting. -/
def actsOf : StepRes α → List SQSAction
  | .done _ acts => acts
  | .continueWith acts => acts

def c6Decode : String → Option Nat := fun _ => none

theorem isMatch_true_iff (execId : String) (m : SQSMessage) :
    isMatch execId m = true ↔ execIdOf m = some execId := by
  simp [isMatch]

theorem isMatch_false_iff (execId : String) (m : SQSMessage) :
    isMatch execId m = false ↔ execIdOf m ≠ some execId := by
  simp [isMatch]

theorem scanBatch_fst (execId : String) :
    ∀ (msgs : List SQSMessage) (acc : Option SQSMessage × List SQSAction),
      (msgs.foldl
        (fun acc m =>
          if isMatch execId m then (some m, acc.2)
          else (acc.1, acc.2 ++ [SQSAction.release m.receiptHandle])) acc).1 =
      (msgs.reverse.find? (isMatch execId)).or acc.1 := by
  intro msgs
  induction msgs with
  | nil => intro acc; simp
  | cons m ms ih =>
    intro acc
    rw [List.foldl_cons, List.reverse_cons, List.find?_append]
    cases hb : isMatch execId m
    · rw [if_neg (by simp), ih]
      simp [List.find?, hb]
    · rw [if_pos rfl, ih]
      cases hms : ms.reverse.find? (isMatch execId) <;> simp [List.find?, hb]

theorem scanBatch_snd (execId : String) :
    ∀ (msgs : List SQSMessage) (acc : Option SQSMessage × List SQSAction),
      (msgs.foldl
        (fun acc m =>
          if isMatch execId m then (some m, acc.2)
          else (acc.1, acc.2 ++ [SQSAction.release m.receiptHandle])) acc).2 =
      acc.2 ++ releaseActions execId msgs := by
  intro msgs
  induction msgs with
  | nil => intro acc; simp [releaseActions]
  | cons m ms ih =>
    intro acc
    rw [List.foldl_cons]
    cases hb : isMatch execId m
    · rw [if_neg (by simp), ih]
      simp [releaseActions, List.filter_cons, hb]
    · rw [if_pos rfl, ih]
      simp [releaseActions, List.filter_cons, hb]

theorem scanBatch_eq (execId : String) (msgs : List SQSMessage) :
    scanBatch execId msgs =
      (lastMatchingMsg execId msgs, releaseActions execId msgs) := by
  unfold scanBatch lastMatchingMsg
  refine Prod.ext ?_ ?_
  · rw [scanBatch_fst]; simp
  · rw [scanBatch_snd]; simp

theorem lastMatchingMsg_spec (execId : String) (msgs : List SQSMessage)
    (m : SQSMessage) (h : lastMatchingMsg execId msgs = some m) :
    m ∈ msgs ∧ execIdOf m = some execId := by
  unfold lastMatchingMsg at h
  refine ⟨?_, ?_⟩
  · have := List.mem_of_find?_eq_some h
    simpa using this
  · have := List.find?_some h
    simpa [isMatch] using this

theorem lastMatchingMsg_eq_none_iff (execId : String) (msgs : List SQSMessage) :
    lastMatchingMsg execId msgs = none ↔
      ∀ m ∈ msgs, execIdOf m ≠ some execId := by
  unfold lastMatchingMsg
  rw [List.find?_eq_none]
  constructor
  · intro h m hm
    have := h m (by simpa using hm)
    simpa [isMatch] using this
  · intro h m hm
    have := h m (by simpa using hm)
    simpa [isMatch] using this

theorem sleepsOf_releaseActions (execId : String) (msgs : List SQSMessage) :
    sleepsOf (releaseActions execId msgs) = [] := by
  unfold sleepsOf releaseActions
  induction msgs with
  | nil => simp
  | cons m ms ih =>
    cases hb : isMatch execId m <;> simp [List.filter_cons, hb, ih]

theorem deletesOf_releaseActions (execId : String) (msgs : List SQSMessage) :
    deletesOf (releaseActions execId msgs) = [] := by
  unfold deletesOf releaseActions
  induction msgs with
  | nil => simp
  | cons m ms ih =>
    cases hb : isMatch execId m <;> simp [List.filter_cons, hb, ih]

theorem mem_releaseActions (execId : String) (msgs : List SQSMessage)
    (m : SQSMessage) (hm : m ∈ msgs) (hnm : execIdOf m ≠ some execId) :
    SQSAction.release m.receiptHandle ∈ releaseActions execId msgs := by
  unfold releaseActions
  refine List.mem_map.mpr ⟨m, ?_, rfl⟩
  refine List.mem_filter.mpr ⟨hm, ?_⟩
  simp [isMatch, hnm]

theorem pollStep_matched (decode : String → Option α) (execId : String)
    (msgs : List SQSMessage) (m : SQSMessage) (payload : α) (p : ℚ)
    (hm : lastMatchingMsg execId msgs = some m)
    (hdec : decode m.body = some payload) :
    pollStep decode execId (.batch msgs) p =
      .done (WaitOutcome.matched payload)
        (releaseActions execId msgs ++ [SQSAction.delete m.receiptHandle]) := by
  have hne : msgs ≠ [] := by
    intro h
    subst h
    simp [lastMatchingMsg, List.find?] at hm
  have hemp : msgs.isEmpty = false := by
    cases msgs with
    | nil => exact absurd rfl hne
    | cons a l => simp
  simp [pollStep, hemp, scanBatch_eq, hm, hdec]

theorem pollStep_parsefail (decode : String → Option α) (execId : String)
    (msgs : List SQSMessage) (m : SQSMessage) (p : ℚ)
    (hm : lastMatchingMsg execId msgs = some m)
    (hdec : decode m.body = none) :
    pollStep decode execId (.batch msgs) p =
      .continueWith (releaseActions execId msgs ++
        [SQSAction.release m.receiptHandle, SQSAction.sleep (ratMin p 5)]) := by
  have hne : msgs ≠ [] := by
    intro h
    subst h
    simp [lastMatchingMsg, List.find?] at hm
  have hemp : msgs.isEmpty = false := by
    cases msgs with
    | nil => exact absurd rfl hne
    | cons a l => simp
  simp [pollStep, hemp, scanBatch_eq, hm, hdec]

theorem pollStep_cases (decode : String → Option α) (execId : String)
    (fetch : FetchResult) (p : ℚ) :
    (∃ msgs m payload, fetch = .batch msgs ∧
       lastMatchingMsg execId msgs = some m ∧ decode m.body = some payload ∧
       pollStep decode execId fetch p =
         .done (WaitOutcome.matched payload)
           (releaseActions execId msgs ++ [SQSAction.delete m.receiptHandle])) ∨
    (∃ acts, pollStep decode execId fetch p = .continueWith acts ∧
       deletesOf acts = [] ∧
       (sleepsOf acts = [p] ∨ sleepsOf acts = [ratMin p 5])) := by
  cases fetch with
  | fetchError =>
    right
    exact ⟨[SQSAction.sleep p], rfl, by simp [deletesOf], by left; simp [sleepsOf]⟩
  | batch msgs =>
    cases hemp : msgs.isEmpty with
    | true =>
      right
      refine ⟨[SQSAction.sleep (ratMin p 5)], ?_, by simp [deletesOf], ?_⟩
      · simp [pollStep, hemp]
      · right; simp [sleepsOf]
    | false =>
      cases hm : lastMatchingMsg execId msgs with
      | none =>
        right
        refine ⟨releaseActions execId msgs ++ [SQSAction.sleep (ratMin p 5)], ?_, ?_, ?_⟩
        · simp [pollStep, hemp, scanBatch_eq, hm]
        · simp [deletesOf, List.filterMap_append] at *
          simpa [deletesOf] using deletesOf_releaseActions execId msgs
        · right
          simp [sleepsOf, List.filterMap_append] at *
          simpa [sleepsOf] using sleepsOf_releaseActions execId msgs
      | some m =>
        cases hdec : decode m.body with
        | none =>
          right
          refine ⟨releaseActions execId msgs ++
            [SQSAction.release m.receiptHandle, SQSAction.sleep (ratMin p 5)],
            pollStep_parsefail decode execId msgs m p hm hdec, ?_, ?_⟩
          · simp [deletesOf, List.filterMap_append] at *
            simpa [deletesOf] using deletesOf_releaseActions execId msgs
          · right
            simp [sleepsOf, List.filterMap_append] at *
            simpa [sleepsOf] using sleepsOf_releaseActions execId msgs
        | some payload =>
          left
          exact ⟨msgs, m, payload, rfl, hm, hdec,
            pollStep_matched decode execId msgs m payload p hm hdec⟩

theorem waitLoop_guard_false (decode : String → Option α) (execId : String)
    (deadline : ℚ) (events : List PollEvent) (now p : ℚ)
    (hlt : ¬ now < deadline) :
    waitLoop decode execId deadline events now p =
      ⟨WaitOutcome.timedOut execId, [], now, 0⟩ := by
  cases events <;> simp [waitLoop, hlt]

theorem waitLoop_nil (decode : String → Option α) (execId : String)
    (deadline : ℚ) (now p : ℚ) (hlt : now < deadline) :
    waitLoop decode execId deadline [] now p =
      ⟨WaitOutcome.outOfTrace, [], now, 0⟩ := by
  simp [waitLoop, hlt]

theorem waitLoop_cons_done (decode : String → Option α) (execId : String)
    (deadline : ℚ) (e : PollEvent) (rest : List PollEvent) (now p : ℚ)
    (out : WaitOutcome α) (acts : List SQSAction) (hlt : now < deadline)
    (hps : pollStep decode execId e.fetch p = .done out acts) :
    waitLoop decode execId deadline (e :: rest) now p = ⟨out, acts, now, 1⟩ := by
  simp [waitLoop, hlt, hps]

theorem waitLoop_cons_continue (decode : String → Option α) (execId : String)
    (deadline : ℚ) (e : PollEvent) (rest : List PollEvent) (now p : ℚ)
    (acts : List SQSAction) (hlt : now < deadline)
    (hps : pollStep decode execId e.fetch p = .continueWith acts) :
    waitLoop decode execId deadline (e :: rest) now p =
      ⟨(waitLoop decode execId deadline rest (now + e.dt) (nextDelay p)).outcome,
       acts ++ (waitLoop decode execId deadline rest (now + e.dt) (nextDelay p)).actions,
       (waitLoop decode execId deadline rest (now + e.dt) (nextDelay p)).finalTime,
       (waitLoop decode execId deadline rest (now + e.dt) (nextDelay p)).consumed + 1⟩ := by
  simp [waitLoop, hlt, hps]

theorem waitLoop_timedOut_inv (decode : String → Option α) (execId : String)
    (deadline : ℚ) :
    ∀ (events : List PollEvent) (now p : ℚ) (s : String),
      (waitLoop decode execId deadline events now p).outcome = WaitOutcome.timedOut s →
      s = execId ∧ deadline ≤ (waitLoop decode execId deadline events now p).finalTime := by
  intro events
  induction events with
  | nil =>
    intro now p s h
    by_cases hlt : now < deadline
    · rw [waitLoop_nil decode execId deadline now p hlt] at h
      simp at h
    · rw [waitLoop_guard_false decode execId deadline [] now p hlt] at h ⊢
      simp at h ⊢
      exact ⟨h.symm, le_of_not_lt hlt⟩
  | cons e rest ih =>
    intro now p s h
    by_cases hlt : now < deadline
    · rcases pollStep_cases decode execId e.fetch p with
        ⟨msgs, m, payload, hf, hm, hdec, hps⟩ | ⟨acts, hps, hdel, hsl⟩
      · rw [waitLoop_cons_done decode execId deadline e rest now p _ _ hlt hps] at h
        simp at h
      · rw [waitLoop_cons_continue decode execId deadline e rest now p acts hlt hps] at h ⊢
        exact ih (now + e.dt) (nextDelay p) s h
    · rw [waitLoop_guard_false decode execId deadline (e :: rest) now p hlt] at h ⊢
      simp at h ⊢
      exact ⟨h.symm, le_of_not_lt hlt⟩

theorem waitLoop_noMatch_timedOut (decode : String → Option α) (execId : String)
    (deadline : ℚ) :
    ∀ (events : List PollEvent) (now p : ℚ),
      (∀ e ∈ events, eventNoMatch execId e) →
      deadline ≤ now + sumDt events →
      (waitLoop decode execId deadline events now p).outcome =
        WaitOutcome.timedOut execId := by
  intro events
  induction events with
  | nil =>
    intro now p _ hlong
    have hlt : ¬ now < deadline := by
      simp [sumDt] at hlong
      exact not_lt.mpr hlong
    rw [waitLoop_guard_false decode execId deadline [] now p hlt]
  | cons e rest ih =>
    intro now p hnm hlong
    by_cases hlt : now < deadline
    · rcases pollStep_cases decode execId e.fetch p with
        ⟨msgs, m, payload, hf, hm, hdec, hps⟩ | ⟨acts, hps, hdel, hsl⟩
      · exfalso
        have hspec := lastMatchingMsg_spec execId msgs m hm
        have := hnm e (List.mem_cons_self e rest) m (by simpa [batchMessages, hf] using hspec.1)
        exact this hspec.2
      · rw [waitLoop_cons_continue decode execId deadline e rest now p acts hlt hps]
        refine ih (now + e.dt) (nextDelay p) (fun x hx => hnm x (List.mem_cons_of_mem e hx)) ?_
        have : sumDt (e :: rest) = e.dt + sumDt rest := by simp [sumDt]
        rw [this] at hlong
        linarith
    · rw [waitLoop_guard_false decode execId deadline (e :: rest) now p hlt]

theorem ratMin_eq_left (a b : ℚ) (h : a ≤ b) : ratMin a b = a := by
  simp [ratMin, h]

theorem nextDelay_bounds (d : ℚ) (h1 : 1 / 2 ≤ d) (h2 : d ≤ 5) :
    1 / 2 ≤ nextDelay d ∧ nextDelay d ≤ 5 ∧ d ≤ nextDelay d := by
  unfold nextDelay ratMin
  by_cases h : d * (3 / 2) ≤ 5
  · rw [if_pos h]
    refine ⟨by linarith, h, by linarith⟩
  · rw [if_neg h]
    refine ⟨by linarith, le_refl 5, h2⟩

theorem sleepsOf_append (a b : List SQSAction) :
    sleepsOf (a ++ b) = sleepsOf a ++ sleepsOf b := by
  simp [sleepsOf, List.filterMap_append]

theorem deletesOf_append (a b : List SQSAction) :
    deletesOf (a ++ b) = deletesOf a ++ deletesOf b := by
  simp [deletesOf, List.filterMap_append]

theorem delete_mem_iff (acts : List SQSAction) (h : Nat) :
    SQSAction.delete h ∈ acts ↔ h ∈ deletesOf acts := by
  unfold deletesOf
  rw [List.mem_filterMap]
  constructor
  · intro hm
    exact ⟨SQSAction.delete h, hm, rfl⟩
  · rintro ⟨a, ha, hsome⟩
    cases a <;> simp_all

theorem waitLoop_sleeps (decode : String → Option α) (execId : String)
    (deadline : ℚ) :
    ∀ (events : List PollEvent) (now p : ℚ), 1 / 2 ≤ p → p ≤ 5 →
      List.Chain' (fun a b => b = nextDelay a)
        (sleepsOf (waitLoop decode execId deadline events now p).actions) ∧
      (∀ d ∈ sleepsOf (waitLoop decode execId deadline events now p).actions,
        1 / 2 ≤ d ∧ d ≤ 5) ∧
      (sleepsOf (waitLoop decode execId deadline events now p).actions = [] ∨
        (sleepsOf (waitLoop decode execId deadline events now p).actions).head? =
          some p) := by
  intro events
  induction events with
  | nil =>
    intro now p h1 h2
    by_cases hlt : now < deadline
    · rw [waitLoop_nil decode execId deadline now p hlt]
      simp [sleepsOf]
    · rw [waitLoop_guard_false decode execId deadline [] now p hlt]
      simp [sleepsOf]
  | cons e rest ih =>
    intro now p h1 h2
    by_cases hlt : now < deadline
    · rcases pollStep_cases decode execId e.fetch p with
        ⟨msgs, m, payload, hf, hm, hdec, hps⟩ | ⟨acts, hps, hdel, hsl⟩
      · rw [waitLoop_cons_done decode execId deadline e rest now p _ _ hlt hps]
        simp only [sleepsOf_append, sleepsOf_releaseActions]
        simp [sleepsOf]
      · rw [waitLoop_cons_continue decode execId deadline e rest now p acts hlt hps]
        have hacts : sleepsOf acts = [p] := by
          rcases hsl with h | h
          · exact h
          · rw [h, ratMin_eq_left p 5 h2]
        obtain ⟨hb1, hb2, hb3⟩ := nextDelay_bounds p h1 h2
        obtain ⟨ihc, ihm, ihh⟩ := ih (now + e.dt) (nextDelay p) hb1 hb2
        simp only [sleepsOf_append, hacts]
        refine ⟨?_, ?_, ?_⟩
        · rw [List.singleton_append, List.chain'_cons']
          refine ⟨?_, ihc⟩
          intro b hb
          rcases ihh with hnil | hhead
          · simp [hnil] at hb
          · rw [hhead] at hb
            simp at hb
            exact hb.symm
        · intro d hd
          rcases List.mem_append.mp hd with hd | hd
          · simp at hd
            subst hd
            exact ⟨h1, h2⟩
          · exact ihm d hd
        · right
          simp
    · rw [waitLoop_guard_false decode execId deadline (e :: rest) now p hlt]
      simp [sleepsOf]

theorem waitLoop_deletes (decode : String → Option α) (execId : String)
    (deadline : ℚ) :
    ∀ (events : List PollEvent) (now p : ℚ),
      (deletesOf (waitLoop decode execId deadline events now p).actions).length ≤ 1 ∧
      (∀ h, SQSAction.delete h ∈ (waitLoop decode execId deadline events now p).actions →
        ∃ e ∈ events, ∃ msgs m, e.fetch = FetchResult.batch msgs ∧
          lastMatchingMsg execId msgs = some m ∧ m.receiptHandle = h) := by
  intro events
  induction events with
  | nil =>
    intro now p
    by_cases hlt : now < deadline
    · rw [waitLoop_nil decode execId deadline now p hlt]
      simp [deletesOf]
    · rw [waitLoop_guard_false decode execId deadline [] now p hlt]
      simp [deletesOf]
  | cons e rest ih =>
    intro now p
    by_cases hlt : now < deadline
    · rcases pollStep_cases decode execId e.fetch p with
        ⟨msgs, m, payload, hf, hm, hdec, hps⟩ | ⟨acts, hps, hdel, hsl⟩
      · rw [waitLoop_cons_done decode execId deadline e rest now p _ _ hlt hps]
        constructor
        · rw [deletesOf_append, deletesOf_releaseActions]
          simp [deletesOf]
        · intro h hmem
          rcases List.mem_append.mp hmem with hmem | hmem
          · exfalso
            have := (delete_mem_iff (releaseActions execId msgs) h).mp hmem
            rw [deletesOf_releaseActions] at this
            simp at this
          · simp at hmem
            exact ⟨e, List.mem_cons_self e rest, msgs, m, hf, hm, by rw [hmem]⟩
      · rw [waitLoop_cons_continue decode execId deadline e rest now p acts hlt hps]
        obtain ⟨ihl, ihm⟩ := ih (now + e.dt) (nextDelay p)
        constructor
        · simp only [deletesOf_append, hdel, List.nil_append]
          exact ihl
        · intro h hmem
          rcases List.mem_append.mp hmem with hmem | hmem
          · exfalso
            have := (delete_mem_iff acts h).mp hmem
            rw [hdel] at this
            simp at this
          · obtain ⟨e', he', msgs, m, hf, hm, hh⟩ := ihm h hmem
            exact ⟨e', List.mem_cons_of_mem e he', msgs, m, hf, hm, hh⟩
    · rw [waitLoop_guard_false decode execId deadline (e :: rest) now p hlt]
      simp [deletesOf]

theorem pollStep_batch_acts (decode : String → Option α) (execId : String)
    (msgs : List SQSMessage) (p : ℚ) (hne : msgs ≠ []) :
    ∃ tail, actsOf (pollStep decode execId (.batch msgs) p) =
      releaseActions execId msgs ++ tail := by
  have hemp : msgs.isEmpty = false := by
    cases msgs with
    | nil => exact absurd rfl hne
    | cons a l => simp
  cases hm : lastMatchingMsg execId msgs with
  | none =>
    refine ⟨[SQSAction.sleep (ratMin p 5)], ?_⟩
    simp [pollStep, hemp, scanBatch_eq, hm, actsOf]
  | some m =>
    cases hdec : decode m.body with
    | none =>
      refine ⟨[SQSAction.release m.receiptHandle, SQSAction.sleep (ratMin p 5)], ?_⟩
      rw [pollStep_parsefail decode execId msgs m p hm hdec]
      simp [actsOf]
    | some payload =>
      refine ⟨[SQSAction.delete m.receiptHandle], ?_⟩
      rw [pollStep_matched decode execId msgs m payload p hm hdec]
      simp [actsOf]

theorem waitLoop_cons_actions_prefix (decode : String → Option α)
    (execId : String) (deadline : ℚ) (e : PollEvent) (rest : List PollEvent)
    (now p : ℚ) (hlt : now < deadline) :
    ∃ tail, (waitLoop decode execId deadline (e :: rest) now p).actions =
      actsOf (pollStep decode execId e.fetch p) ++ tail := by
  cases hps : pollStep decode execId e.fetch p with
  | done out acts =>
    refine ⟨[], ?_⟩
    rw [waitLoop_cons_done decode execId deadline e rest now p _ _ hlt hps]
    simp [actsOf]
  | continueWith acts =>
    refine ⟨(waitLoop decode execId deadline rest (now + e.dt) (nextDelay p)).actions, ?_⟩
    rw [waitLoop_cons_continue decode execId deadline e rest now p acts hlt hps]
    simp [actsOf]

theorem waitLoop_releases (decode : String → Option α) (execId : String)
    (deadline : ℚ) :
    ∀ (events : List PollEvent) (now p : ℚ) (i : Nat) (e : PollEvent)
      (msgs : List SQSMessage) (m : SQSMessage),
      i < (waitLoop decode execId deadline events now p).consumed →
      events[i]? = some e → e.fetch = FetchResult.batch msgs → m ∈ msgs →
      execIdOf m ≠ some execId →
      SQSAction.release m.receiptHandle ∈
        (waitLoop decode execId deadline events now p).actions := by
  intro events
  induction events with
  | nil =>
    intro now p i e msgs m hi
    by_cases hlt : now < deadline
    · rw [waitLoop_nil decode execId deadline now p hlt] at hi ⊢
      simp at hi
    · rw [waitLoop_guard_false decode execId deadline [] now p hlt] at hi ⊢
      simp at hi
  | cons e0 rest ih =>
    intro now p i e msgs m hi hget hf hmem hnm
    by_cases hlt : now < deadline
    · cases i with
      | zero =>
        simp at hget
        subst hget
        have hne : msgs ≠ [] := List.ne_nil_of_mem hmem
        obtain ⟨tail, htail⟩ :=
          waitLoop_cons_actions_prefix decode execId deadline e0 rest now p hlt
        rw [htail, hf]
        obtain ⟨tail2, htail2⟩ := pollStep_batch_acts decode execId msgs p hne
        rw [htail2, List.append_assoc]
        exact List.mem_append.mpr (Or.inl (mem_releaseActions execId msgs m hmem hnm))
      | succ i =>
        rcases pollStep_cases decode execId e0.fetch p with
          ⟨msgs', m', payload, hf', hm', hdec, hps⟩ | ⟨acts, hps, hdel, hsl⟩
        · rw [waitLoop_cons_done decode execId deadline e0 rest now p _ _ hlt hps] at hi
          simp at hi
        · rw [waitLoop_cons_continue decode execId deadline e0 rest now p acts hlt hps] at hi ⊢
          simp at hi hget
          refine List.mem_append.mpr (Or.inr ?_)
          exact ih (now + e0.dt) (nextDelay p) i e msgs m (by omega) hget hf hmem hnm
    · rw [waitLoop_guard_false decode execId deadline (e0 :: rest) now p hlt] at hi ⊢
      simp at hi

theorem pollStep_noMatch_continue (decode : String → Option α) (execId : String)
    (e : PollEvent) (p : ℚ) (h : eventNoMatch execId e) :
    ∃ acts, pollStep decode execId e.fetch p = .continueWith acts := by
  rcases pollStep_cases decode execId e.fetch p with
    ⟨msgs, m, payload, hf, hm, hdec, hps⟩ | ⟨acts, hps, _, _⟩
  · exfalso
    have hspec := lastMatchingMsg_spec execId msgs m hm
    exact h m (by simpa [batchMessages, hf] using hspec.1) hspec.2
  · exact ⟨acts, hps⟩

theorem sumDt_nonneg (events : List PollEvent) (h : ∀ e ∈ events, 0 ≤ e.dt) :
    0 ≤ sumDt events := by
  unfold sumDt
  refine List.sum_nonneg ?_
  intro x hx
  obtain ⟨e, he, rfl⟩ := List.mem_map.mp hx
  exact h e he

theorem sumDt_cons (e : PollEvent) (rest : List PollEvent) :
    sumDt (e :: rest) = e.dt + sumDt rest := by
  simp [sumDt]

theorem waitLoop_ignores_releaseFailures (decode : String → Option α)
    (execId : String) (deadline : ℚ) :
    ∀ (events : List PollEvent) (now p : ℚ) (f : PollEvent → List Nat),
      waitLoop decode execId deadline (events.map (setReleaseFailures f)) now p =
        waitLoop decode execId deadline events now p := by
  intro events
  induction events with
  | nil => intro now p f; rfl
  | cons e rest ih =>
    intro now p f
    by_cases hlt : now < deadline
    · rw [List.map_cons]
      have hfe : (setReleaseFailures f e).fetch = e.fetch := rfl
      have hde : (setReleaseFailures f e).dt = e.dt := rfl
      cases hps : pollStep decode execId e.fetch p with
      | done out acts =>
        rw [waitLoop_cons_done decode execId deadline (setReleaseFailures f e)
              (rest.map (setReleaseFailures f)) now p out acts hlt (by rw [hfe]; exact hps),
            waitLoop_cons_done decode execId deadline e rest now p out acts hlt hps]
      | continueWith acts =>
        rw [waitLoop_cons_continue decode execId deadline (setReleaseFailures f e)
              (rest.map (setReleaseFailures f)) now p acts hlt (by rw [hfe]; exact hps),
            waitLoop_cons_continue decode execId deadline e rest now p acts hlt hps,
            hde, ih (now + e.dt) (nextDelay p) f]
    · rw [List.map_cons,
          waitLoop_guard_false decode execId deadline _ now p hlt,
          waitLoop_guard_false decode execId deadline (e :: rest) now p hlt]

theorem waitLoop_prefix_matched (decode : String → Option α) (execId : String)
    (deadline : ℚ) :
    ∀ (pre : List PollEvent) (e : PollEvent) (rest : List PollEvent)
      (now p : ℚ) (msgs : List SQSMessage) (m : SQSMessage) (payload : α),
      (∀ x ∈ pre, eventNoMatch execId x) →
      (∀ x ∈ pre, 0 ≤ x.dt) →
      now + sumDt pre < deadline →
      e.fetch = FetchResult.batch msgs →
      lastMatchingMsg execId msgs = some m →
      decode m.body = some payload →
      (waitLoop decode execId deadline (pre ++ e :: rest) now p).outcome =
        WaitOutcome.matched payload := by
  intro pre
  induction pre with
  | nil =>
    intro e rest now p msgs m payload _ _ hclock hf hm hdec
    have hlt : now < deadline := by
      simp [sumDt] at hclock
      exact hclock
    have hps : pollStep decode execId e.fetch p =
        .done (WaitOutcome.matched payload)
          (releaseActions execId msgs ++ [SQSAction.delete m.receiptHandle]) := by
      rw [hf]
      exact pollStep_matched decode execId msgs m payload p hm hdec
    rw [List.nil_append,
        waitLoop_cons_done decode execId deadline e rest now p _ _ hlt hps]
  | cons x pre' ih =>
    intro e rest now p msgs m payload hnm hdt hclock hf hm hdec
    have hx : eventNoMatch execId x := hnm x (List.mem_cons_self x pre')
    have hlt : now < deadline := by
      have h1 : 0 ≤ x.dt := hdt x (List.mem_cons_self x pre')
      have h2 : 0 ≤ sumDt pre' :=
        sumDt_nonneg pre' (fun y hy => hdt y (List.mem_cons_of_mem x hy))
      rw [sumDt_cons] at hclock
      linarith
    obtain ⟨acts, hps⟩ := pollStep_noMatch_continue decode execId x p hx
    rw [List.cons_append,
        waitLoop_cons_continue decode execId deadline x (pre' ++ e :: rest) now p acts hlt hps]
    refine ih e rest (now + x.dt) (nextDelay p) msgs m payload
      (fun y hy => hnm y (List.mem_cons_of_mem x hy))
      (fun y hy => hdt y (List.mem_cons_of_mem x hy)) ?_ hf hm hdec
    rw [sumDt_cons] at hclock
    linarith

theorem mem_allMessages (events : List PollEvent) (e : PollEvent)
    (msgs : List SQSMessage) (m : SQSMessage) (he : e ∈ events)
    (hf : e.fetch = FetchResult.batch msgs) (hm : m ∈ msgs) :
    m ∈ allMessages events := by
  induction events with
  | nil => simp at he
  | cons x rest ih =>
    have : allMessages (x :: rest) = batchMessages x.fetch ++ allMessages rest := rfl
    rw [this]
    rcases List.mem_cons.mp he with rfl | he
    · exact List.mem_append.mpr (Or.inl (by simp [batchMessages, hf, hm]))
    · exact List.mem_append.mpr (Or.inr (ih he))

theorem waitLoop_no_delete_of_nonmatching (decode : String → Option α)
    (execId : String) (deadline : ℚ) (events : List PollEvent)
    (now p : ℚ) (m : SQSMessage)
    (hnodup : ((allMessages events).map SQSMessage.receiptHandle).Nodup)
    (hmem : m ∈ allMessages events)
    (hnm : execIdOf m ≠ some execId) :
    SQSAction.delete m.receiptHandle ∉
      (waitLoop decode execId deadline events now p).actions := by
  intro hdel
  obtain ⟨e, he, msgs, m', hf, hm', hh⟩ :=
    (waitLoop_deletes decode execId deadline events now p).2 m.receiptHandle hdel
  have hspec := lastMatchingMsg_spec execId msgs m' hm'
  have hmem' : m' ∈ allMessages events := mem_allMessages events e msgs m' he hf hspec.1
  have : m' = m := List.inj_on_of_nodup_map hnodup hmem' hmem hh
  rw [this] at hspec
  exact hnm hspec.2

theorem chain_le_of_chain_eq :
    ∀ (s : List ℚ), List.Chain' (fun a b => b = nextDelay a) s →
      (∀ d ∈ s, 1 / 2 ≤ d ∧ d ≤ 5) → List.Chain' (· ≤ ·) s := by
  intro s
  induction s with
  | nil => intro _ _; simp
  | cons a tl ih =>
    intro hc hm
    rw [List.chain'_cons'] at hc ⊢
    refine ⟨?_, ih hc.2 (fun d hd => hm d (List.mem_cons_of_mem a hd))⟩
    intro b hb
    have hbeq := hc.1 b hb
    have ha := hm a (List.mem_cons_self a tl)
    obtain ⟨-, -, hle⟩ := nextDelay_bounds a ha.1 ha.2
    rw [hbeq]
    exact hle

/-- Claim C4: within a single `wait_for` call the backoff delay evolves as
`next_delay = min(delay * 1.5, 5.0)` from the initial 0.5 s: the observed
sleep durations follow that recurrence, are non-decreasing, stay within
[0.5, 5], and every fresh call's first sleep is again 0.5 s (per-call
state). -/
theorem claim_C4 (decode : String → Option α) (execId : String) (tm : ℚ)
    (events : List PollEvent) :
    List.Chain' (fun a b => b = nextDelay a)
      (sleepsOf (waitForResponse decode execId tm events).actions) ∧
    List.Chain' (· ≤ ·)
      (sleepsOf (waitForResponse decode execId tm events).actions) ∧
    (∀ d ∈ sleepsOf (waitForResponse decode execId tm events).actions,
      1 / 2 ≤ d ∧ d ≤ 5) ∧
    (sleepsOf (waitForResponse decode execId tm events).actions = [] ∨
      (sleepsOf (waitForResponse decode execId tm events).actions).head? =
        some (1 / 2)) := by
  unfold waitForResponse
  obtain ⟨hc, hm, hh⟩ :=
    waitLoop_sleeps decode execId (60 * tm) events 0 (1 / 2) (le_refl _) (by norm_num)
  exact ⟨hc, chain_le_of_chain_eq _ hc hm, hm, hh⟩

/-- Claim C4 witness: on a trace with a single empty batch, the call sleeps
exactly once, for the initial 0.5 s, and that duration is within the
claimed bounds. -/
theorem claim_C4_witness :
    (1 / 2 : ℚ) ∈ sleepsOf (waitForResponse c4Decode "X" 1 c4Events).actions ∧
    (1 / 2 ≤ (1 / 2 : ℚ) ∧ (1 / 2 : ℚ) ≤ 5) :=
  ⟨by norm_num [waitForResponse, waitLoop, pollStep, sleepsOf, ratMin, c4Events, c4Decode],
   (claim_C4 c4Decode "X" 1 c4Events).2.2.1 (1 / 2)
     (by norm_num [waitForResponse, waitLoop, pollStep, sleepsOf, ratMin, c4Events, c4Decode])⟩

/-- Claim C5: when no fetched message ever matches the target correlation
id and the trace spans the deadline, the call raises `SQSTimeoutError`; in
every run such a timeout carries the call's correlation id and is raised
only once the model clock has reached or passed the deadline, never
before. -/
theorem claim_C5 (decode : String → Option α) (execId : String) (tm : ℚ)
    (events : List PollEvent)
    (hnm : ∀ e ∈ events, eventNoMatch execId e)
    (hlong : 60 * tm ≤ sumDt events) :
    (waitForResponse decode execId tm events).outcome =
      WaitOutcome.timedOut execId ∧
    60 * tm ≤ (waitForResponse decode execId tm events).finalTime ∧
    (∀ (events' : List PollEvent) (s : String),
      (waitForResponse decode execId tm events').outcome = WaitOutcome.timedOut s →
      s = execId ∧
        60 * tm ≤ (waitForResponse decode execId tm events').finalTime) := by
  unfold waitForResponse
  have hout := waitLoop_noMatch_timedOut decode execId (60 * tm) events 0 (1 / 2)
    hnm (by rw [zero_add]; exact hlong)
  refine ⟨hout, ?_, ?_⟩
  · exact (waitLoop_timedOut_inv decode execId (60 * tm) events 0 (1 / 2) execId hout).2
  · intro events' s h
    exact waitLoop_timedOut_inv decode execId (60 * tm) events' 0 (1 / 2) s h

/-- Claim C5 witness: a 1-minute wait over a trace with one empty batch
spanning 60 s of wall-clock time times out with the target correlation
id. -/
theorem claim_C5_witness :
    (∀ e ∈ c5Events, eventNoMatch "X" e) ∧ 60 * (1 : ℚ) ≤ sumDt c5Events ∧
    (waitForResponse c5Decode "X" 1 c5Events).outcome =
      WaitOutcome.timedOut "X" :=
  ⟨by simp [c5Events, eventNoMatch, batchMessages],
   by norm_num [sumDt, c5Events],
   (claim_C5 c5Decode "X" 1 c5Events
     (by simp [c5Events, eventNoMatch, batchMessages])
     (by norm_num [sumDt, c5Events])).1⟩

/-- Claim C6: `send_request` raises the transport error (`SQSClientError`
wrapping the failed publish) exactly when the publish itself fails, and
that outcome is distinct from the timeout outcome, so a caller can tell a
send failure from the absence of a response. -/
theorem claim_C6 (decode : String → Option α) (operation : String)
    (params : List (String × PyVal)) (uuid timestamp : String)
    (publishFails : Bool) (tm : ℚ) (events : List PollEvent) :
    ((sendRequest decode operation params uuid timestamp publishFails tm
        events).2 = SendOutcome.channelError ↔ publishFails = true) ∧
    (∀ s : String,
      (SendOutcome.channelError : SendOutcome α) ≠
        SendOutcome.ok (WaitOutcome.timedOut s)) := by
  constructor
  · cases publishFails <;> simp [sendRequest]
  · intro s
    simp

/-- Claim C6 witness: with a failing publish the call ends in the channel
error, and that outcome differs from a timeout outcome. -/
theorem claim_C6_witness :
    (sendRequest c6Decode "tws_health" [] "u" "t" true 1 []).2 =
      SendOutcome.channelError ∧
    (SendOutcome.channelError : SendOutcome Nat) ≠
      SendOutcome.ok (WaitOutcome.timedOut "u") :=
  ⟨(claim_C6 c6Decode "tws_health" [] "u" "t" true 1 []).1.mpr rfl,
   (claim_C6 c6Decode "tws_health" [] "u" "t" true 1 []).2 "u"⟩

/-- Claim C9: the rate limiter's first `acquire` never waits (the stored
last-resolve time is still 0); a second `acquire` arriving less than
`min_delay` after the previous one returned sleeps exactly the remainder
and resumes at `last + min_delay`; an `acquire` arriving `min_delay` or
later does not sleep. -/
theorem claim_C9 (minDelay lastTime now : ℚ) :
    rateLimiterAcquire minDelay 0 now = (0, now) ∧
    (0 < lastTime → now - lastTime < minDelay →
      rateLimiterAcquire minDelay lastTime now =
        (minDelay - (now - lastTime), lastTime + minDelay)) ∧
    (minDelay ≤ now - lastTime →
      rateLimiterAcquire minDelay lastTime now = (0, now)) := by
  refine ⟨?_, ?_, ?_⟩
  · unfold rateLimiterAcquire
    rw [if_neg]
    rintro ⟨-, h0⟩
    exact lt_irrefl 0 h0
  · intro hpos hlt
    unfold rateLimiterAcquire
    rw [if_pos ⟨hlt, hpos⟩]
    refine Prod.ext rfl ?_
    ring
  · intro hge
    unfold rateLimiterAcquire
    rw [if_neg]
    rintro ⟨hlt, -⟩
    linarith

/-- Claim C9 witness: with `min_delay = 1`, a call 0.5 s after the previous
one sleeps 0.5 s and resumes at `last + 1`; a call 2 s after does not
sleep. -/
theorem claim_C9_witness :
    ((0 : ℚ) < 2 ∧ (5 / 2 : ℚ) - 2 < 1 ∧
      rateLimiterAcquire 1 2 (5 / 2) = (1 - (5 / 2 - 2), 2 + 1)) ∧
    ((1 : ℚ) ≤ 4 - 2 ∧ rateLimiterAcquire 1 2 4 = (0, 4)) :=
  ⟨⟨by norm_num, by norm_num,
    (claim_C9 1 2 (5 / 2)).2.1 (by norm_num) (by norm_num)⟩,
   ⟨by norm_num, (claim_C9 1 2 4).2.2 (by norm_num)⟩⟩

theorem dictSet_append_of_fresh (d : List (String × PyVal)) (k : String)
    (v : PyVal) (hk : ∀ q ∈ d, q.1 ≠ k) : dictSet d k v = d ++ [(k, v)] := by
  unfold dictSet
  rw [if_neg]
  simp only [List.any_eq_true, not_exists, not_and]
  intro q hq
  simp [hk q hq]

theorem dictUpdate_append_of_fresh :
    ∀ (ps d : List (String × PyVal)),
      (∀ p ∈ ps, ∀ q ∈ d, p.1 ≠ q.1) → (ps.map Prod.fst).Nodup →
      dictUpdate d ps = d ++ ps := by
  intro ps
  induction ps with
  | nil => intro d _ _; simp [dictUpdate]
  | cons kv ps' ih =>
    intro d hdisj hnodup
    have hset : dictSet d kv.1 kv.2 = d ++ [kv] := by
      rw [dictSet_append_of_fresh d kv.1 kv.2]
      intro q hq
      exact fun h => hdisj kv (List.mem_cons_self kv ps') q hq h.symm
    have hstep : dictUpdate d (kv :: ps') = dictUpdate (d ++ [kv]) ps' := by
      simp [dictUpdate, hset]
    rw [hstep, ih (d ++ [kv]) ?_ ?_]
    · simp
    · intro p hp q hq
      rcases List.mem_append.mp hq with hq | hq
      · exact hdisj p (List.mem_cons_of_mem kv hp) q hq
      · simp at hq
        subst hq
        rw [List.map_cons, List.nodup_cons] at hnodup
        intro h
        exact hnodup.1 (h ▸ List.mem_map_of_mem Prod.fst hp)
    · rw [List.map_cons, List.nodup_cons] at hnodup
      exact hnodup.2

/-- Claim C8: with caller parameters whose keys avoid the reserved envelope
keys, the published envelope is exactly the flat merge of
`{operation, execution_id (the fresh uuid draw), timestamp}` with the
parameters; the envelope's correlation id is exactly this call's fresh
draw, so distinct draws give distinct envelope correlation ids. -/
theorem claim_C8 (operation uuid timestamp : String)
    (params : List (String × PyVal))
    (hdisj : ∀ p ∈ params,
      p.1 ≠ "operation" ∧ p.1 ≠ "execution_id" ∧ p.1 ≠ "timestamp")
    (hnodup : (params.map Prod.fst).Nodup) :
    buildRequest operation uuid timestamp params =
      [("operation", PyVal.str operation), ("execution_id", PyVal.str uuid),
       ("timestamp", PyVal.str timestamp)] ++ params ∧
    dictGet? (buildRequest operation uuid timestamp params) "execution_id" =
      some (PyVal.str uuid) ∧
    (∀ uuid1 uuid2 : String, uuid1 ≠ uuid2 →
      dictGet? (buildRequest operation uuid1 timestamp params) "execution_id" ≠
        dictGet? (buildRequest operation uuid2 timestamp params) "execution_id") := by
  have hflat : ∀ u : String, buildRequest operation u timestamp params =
      [("operation", PyVal.str operation), ("execution_id", PyVal.str u),
       ("timestamp", PyVal.str timestamp)] ++ params := by
    intro u
    unfold buildRequest
    cases hemp : params.isEmpty with
    | true =>
      have : params = [] := List.isEmpty_iff.mp hemp
      subst this
      simp
    | false =>
      simp only [hemp, Bool.false_eq_true, if_false]
      refine dictUpdate_append_of_fresh params _ ?_ hnodup
      intro p hp q hq
      obtain ⟨h1, h2, h3⟩ := hdisj p hp
      simp only [List.mem_cons, List.mem_singleton] at hq
      rcases hq with rfl | rfl | hq <;> simp_all
  have hget : ∀ u : String,
      dictGet? (buildRequest operation u timestamp params) "execution_id" =
        some (PyVal.str u) := by
    intro u
    rw [hflat u]
    unfold dictGet?
    rw [List.find?_append]
    simp +decide [List.find?]
  refine ⟨hflat uuid, hget uuid, ?_⟩
  intro uuid1 uuid2 hne h
  rw [hget uuid1, hget uuid2] at h
  simp at h
  exact hne h

/-- Claim C8 witness: a `find_symbols` envelope with the `query` parameter
is the three reserved entries followed by the parameter, and distinct uuid
draws yield distinct envelope correlation ids. -/
theorem claim_C8_witness :
    buildRequest "find_symbols" "u1" "t" c8Params =
      [("operation", PyVal.str "find_symbols"), ("execution_id", PyVal.str "u1"),
       ("timestamp", PyVal.str "t")] ++ c8Params ∧
    dictGet? (buildRequest "find_symbols" "u1" "t" c8Params) "execution_id" ≠
      dictGet? (buildRequest "find_symbols" "u2" "t" c8Params) "execution_id" :=
  ⟨(claim_C8 "find_symbols" "u1" "t" c8Params
      (by decide) (by decide)).1,
   (claim_C8 "find_symbols" "u1" "t" c8Params
      (by decide) (by decide)).2.2 "u1" "u2" (by decide)⟩

/-- Claim C1 counterexample: the first fetched batch holds two messages
whose correlation-id metadata equals the target `"X"`: `c1MsgA` (payload 1)
first and `c1MsgB` (payload 2) second.  The scan loop overwrites
`matching_message` on every match, so the call returns payload 2 — not the
payload of the first matching message, refuting the claim as stated. -/
theorem claim_C1_counterexample :
    (waitForResponse c1Decode "X" 1 c1Events).outcome = WaitOutcome.matched 2 ∧
    (waitForResponse c1Decode "X" 1 c1Events).outcome ≠ WaitOutcome.matched 1 := by
  constructor <;>
    · norm_num [waitForResponse, waitLoop, pollStep, scanBatch, isMatch, execIdOf,
        c1Decode, c1MsgA, c1MsgB, c1Events]
      decide

/-- Claim C1 (amended): for the first fetched batch containing a match,
`wait_for` returns the payload of the LAST message in that batch whose
correlation-id metadata equals the target (the scan overwrites its
candidate on every match), provided that message's body parses as JSON;
earlier match-free batches, fetch errors and later events do not affect
this. -/
theorem claim_C1_theorem (decode : String → Option α) (execId : String)
    (tm : ℚ) (pre : List PollEvent) (e : PollEvent) (rest : List PollEvent)
    (msgs : List SQSMessage) (m : SQSMessage) (payload : α)
    (hpre : ∀ x ∈ pre, eventNoMatch execId x)
    (hdt : ∀ x ∈ pre, 0 ≤ x.dt)
    (hclock : sumDt pre < 60 * tm)
    (hb : e.fetch = FetchResult.batch msgs)
    (hm : lastMatchingMsg execId msgs = some m)
    (hdec : decode m.body = some payload) :
    (waitForResponse decode execId tm (pre ++ e :: rest)).outcome =
      WaitOutcome.matched payload := by
  unfold waitForResponse
  exact waitLoop_prefix_matched decode execId (60 * tm) pre e rest 0 (1 / 2)
    msgs m payload hpre hdt (by rw [zero_add]; exact hclock) hb hm hdec

/-- Claim C1 witness: after one empty batch, a batch holding a non-matching
message and two matching ones yields the last matching message's payload. -/
theorem claim_C1_witness :
    (waitForResponse c1Decode "X" 1 c1WEvents).outcome =
      WaitOutcome.matched 2 :=
  claim_C1_theorem c1Decode "X" 1 [⟨.batch [], 1, []⟩]
    ⟨.batch [c1Other, c1MsgA, c1MsgB], 1, []⟩ [] [c1Other, c1MsgA, c1MsgB]
    c1MsgB 2
    (by simp [eventNoMatch, batchMessages])
    (by norm_num)
    (by norm_num [sumDt])
    rfl
    (by decide)
    rfl

/-- Claim C2: a message observed during polling whose correlation-id
metadata differs from the target is released back to the channel
(visibility reset), is never deleted (given globally distinct receipt
handles), and the call's entire result is unchanged by any pattern of
release failures — they are swallowed, never escalated. -/
theorem claim_C2 (decode : String → Option α) (execId : String) (tm : ℚ)
    (events : List PollEvent) (m : SQSMessage)
    (hnm : execIdOf m ≠ some execId) :
    (∀ (i : Nat) (e : PollEvent) (msgs : List SQSMessage),
      i < (waitForResponse decode execId tm events).consumed →
      events[i]? = some e → e.fetch = FetchResult.batch msgs → m ∈ msgs →
      SQSAction.release m.receiptHandle ∈
        (waitForResponse decode execId tm events).actions) ∧
    (((allMessages events).map SQSMessage.receiptHandle).Nodup →
      m ∈ allMessages events →
      SQSAction.delete m.receiptHandle ∉
        (waitForResponse decode execId tm events).actions) ∧
    (∀ f : PollEvent → List Nat,
      waitForResponse decode execId tm (events.map (setReleaseFailures f)) =
        waitForResponse decode execId tm events) := by
  unfold waitForResponse
  refine ⟨?_, ?_, ?_⟩
  · intro i e msgs hi hget hf hmem
    exact waitLoop_releases decode execId (60 * tm) events 0 (1 / 2) i e msgs m
      hi hget hf hmem hnm
  · intro hnodup hmem
    exact waitLoop_no_delete_of_nonmatching decode execId (60 * tm) events 0
      (1 / 2) m hnodup hmem hnm
  · intro f
    exact waitLoop_ignores_releaseFailures decode execId (60 * tm) events 0
      (1 / 2) f

/-- Claim C2 witness: a non-matching message with handle 7 in the consumed
first batch is released, never deleted, and marking its release as failed
changes nothing. -/
theorem claim_C2_witness :
    SQSAction.release 7 ∈ (waitForResponse c2Decode "X" 1 c2Events).actions ∧
    SQSAction.delete 7 ∉ (waitForResponse c2Decode "X" 1 c2Events).actions ∧
    waitForResponse c2Decode "X" 1
        (c2Events.map (setReleaseFailures fun _ => [7])) =
      waitForResponse c2Decode "X" 1 c2Events :=
  ⟨(claim_C2 c2Decode "X" 1 c2Events c2M (by decide)).1 0 ⟨.batch [c2M], 1, []⟩
      [c2M]
      (by
        norm_num [waitForResponse, waitLoop, pollStep, scanBatch, isMatch,
          execIdOf, c2Events, c2M, c2Decode]
        decide)
      rfl rfl (by decide),
   (claim_C2 c2Decode "X" 1 c2Events c2M (by decide)).2.1 (by decide) (by decide),
   (claim_C2 c2Decode "X" 1 c2Events c2M (by decide)).2.2 (fun _ => [7])⟩

/-- Claim C3: for a candidate matched message (the scan's final
`matching_message`): when its body parses, the loop returns that payload
and the call's deletions are exactly that one message's receipt handle;
when parsing fails, the message is released, this iteration deletes
nothing (any deletion comes from the continued wait), and the call's
outcome is that of continuing to wait — a parse failure is never
terminal. -/
theorem claim_C3 (decode : String → Option α) (execId : String)
    (deadline now delay : ℚ) (e : PollEvent) (rest : List PollEvent)
    (msgs : List SQSMessage) (m : SQSMessage)
    (hlt : now < deadline)
    (hb : e.fetch = FetchResult.batch msgs)
    (hm : lastMatchingMsg execId msgs = some m) :
    (∀ payload, decode m.body = some payload →
      (waitLoop decode execId deadline (e :: rest) now delay).outcome =
        WaitOutcome.matched payload ∧
      deletesOf (waitLoop decode execId deadline (e :: rest) now delay).actions =
        [m.receiptHandle]) ∧
    (decode m.body = none →
      SQSAction.release m.receiptHandle ∈
        (waitLoop decode execId deadline (e :: rest) now delay).actions ∧
      (∀ h, SQSAction.delete h ∈
          (waitLoop decode execId deadline (e :: rest) now delay).actions →
        SQSAction.delete h ∈
          (waitLoop decode execId deadline rest (now + e.dt)
            (nextDelay delay)).actions) ∧
      (waitLoop decode execId deadline (e :: rest) now delay).outcome =
        (waitLoop decode execId deadline rest (now + e.dt)
          (nextDelay delay)).outcome) := by
  constructor
  · intro payload hdec
    have hps : pollStep decode execId e.fetch delay =
        .done (WaitOutcome.matched payload)
          (releaseActions execId msgs ++ [SQSAction.delete m.receiptHandle]) := by
      rw [hb]
      exact pollStep_matched decode execId msgs m payload delay hm hdec
    rw [waitLoop_cons_done decode execId deadline e rest now delay _ _ hlt hps]
    refine ⟨rfl, ?_⟩
    rw [deletesOf_append, deletesOf_releaseActions]
    simp [deletesOf]
  · intro hdec
    have hps : pollStep decode execId e.fetch delay =
        .continueWith (releaseActions execId msgs ++
          [SQSAction.release m.receiptHandle,
           SQSAction.sleep (ratMin delay 5)]) := by
      rw [hb]
      exact pollStep_parsefail decode execId msgs m delay hm hdec
    rw [waitLoop_cons_continue decode execId deadline e rest now delay _ hlt hps]
    refine ⟨?_, ?_, rfl⟩
    · simp
    · intro h hmem
      rcases List.mem_append.mp hmem with hmem | hmem
      · exfalso
        have := (delete_mem_iff _ h).mp hmem
        rw [deletesOf_append, deletesOf_releaseActions] at this
        simp [deletesOf] at this
      · exact hmem

/-- Claim C3 witness: a matching message whose body parses (payload 7,
handle 4) is returned and is the only deletion; a matching message with an
unparseable body (handle 5) is released instead. -/
theorem claim_C3_witness :
    ((waitLoop c3Decode "X" 60 [⟨.batch [c3M], 1, []⟩] 0 (1 / 2)).outcome =
        WaitOutcome.matched 7 ∧
      deletesOf (waitLoop c3Decode "X" 60 [⟨.batch [c3M], 1, []⟩] 0
        (1 / 2)).actions = [4]) ∧
    SQSAction.release 5 ∈
      (waitLoop c3Decode "X" 60 [⟨.batch [c3Bad], 1, []⟩] 0 (1 / 2)).actions :=
  ⟨(claim_C3 c3Decode "X" 60 0 (1 / 2) ⟨.batch [c3M], 1, []⟩ [] [c3M] c3M
      (by norm_num) rfl (by decide)).1 7 rfl,
   ((claim_C3 c3Decode "X" 60 0 (1 / 2) ⟨.batch [c3Bad], 1, []⟩ [] [c3Bad] c3Bad
      (by norm_num) rfl (by decide)).2 rfl).1⟩

/-- Claim C7: over a whole `wait_for` call — hence within any single
iteration — at most one message is deleted; any deleted handle belongs to
the last matching message of some fetched batch (the one candidate acted
on); and, with globally distinct receipt handles, a message that is never
a batch's final candidate — e.g. a duplicate match overwritten by a later
one — is never deleted. -/
theorem claim_C7 (decode : String → Option α) (execId : String) (tm : ℚ)
    (events : List PollEvent) :
    (deletesOf (waitForResponse decode execId tm events).actions).length ≤ 1 ∧
    (∀ h, SQSAction.delete h ∈ (waitForResponse decode execId tm events).actions →
      ∃ e ∈ events, ∃ msgs m, e.fetch = FetchResult.batch msgs ∧
        lastMatchingMsg execId msgs = some m ∧ execIdOf m = some execId ∧
        m.receiptHandle = h) ∧
    (((allMessages events).map SQSMessage.receiptHandle).Nodup →
      ∀ m' ∈ allMessages events,
        (∀ e ∈ events, ∀ msgs, e.fetch = FetchResult.batch msgs →
          lastMatchingMsg execId msgs ≠ some m') →
        SQSAction.delete m'.receiptHandle ∉
          (waitForResponse decode execId tm events).actions) := by
  unfold waitForResponse
  obtain ⟨h1, h2⟩ := waitLoop_deletes decode execId (60 * tm) events 0 (1 / 2)
  refine ⟨h1, ?_, ?_⟩
  · intro h hm
    obtain ⟨e, he, msgs, m, hf, hlm, hh⟩ := h2 h hm
    exact ⟨e, he, msgs, m, hf, hlm, (lastMatchingMsg_spec execId msgs m hlm).2, hh⟩
  · intro hnodup m' hmem hnever hdel
    obtain ⟨e, he, msgs, m'', hf, hlm, hh⟩ := h2 m'.receiptHandle hdel
    have hmem'' : m'' ∈ allMessages events :=
      mem_allMessages events e msgs m'' he hf (lastMatchingMsg_spec execId msgs m'' hlm).1
    have : m'' = m' := List.inj_on_of_nodup_map hnodup hmem'' hmem hh
    rw [this] at hlm
    exact hnever e he msgs hf hlm

/-- Claim C7 witness: in a run that deletes handle 4, that deletion is the
final candidate match of some fetched batch. -/
theorem claim_C7_witness :
    ∃ e ∈ c7Events, ∃ msgs m, e.fetch = FetchResult.batch msgs ∧
      lastMatchingMsg "X" msgs = some m ∧ execIdOf m = some "X" ∧
      m.receiptHandle = 4 :=
  (claim_C7 c7Decode "X" 1 c7Events).2.1 4
    (by
      norm_num [waitForResponse, waitLoop, pollStep, scanBatch, isMatch,
        execIdOf, c7Events, c7M, c7Decode])

/-- Claim C10: a fetched message with no correlation-id metadata at all —
no `MessageAttributes`, no `ExecutionId` entry, or no `StringValue` — is
treated as non-matching without raising: its extracted id is `none`, it can
never be the scan's candidate match, it is released back to the channel
when its batch is consumed, and (with globally distinct receipt handles) it
is never deleted. -/
theorem claim_C10 (decode : String → Option α) (execId : String) (tm : ℚ)
    (events : List PollEvent) (m : SQSMessage)
    (hattr : m.messageAttributes = none ∨
      (∃ attrs, m.messageAttributes = some attrs ∧
        attrs.find? (fun p => p.1 = "ExecutionId") = none) ∨
      (∃ attrs entry, m.messageAttributes = some attrs ∧
        attrs.find? (fun p => p.1 = "ExecutionId") = some entry ∧
        entry.2.stringValue = none)) :
    execIdOf m = none ∧
    (∀ msgs : List SQSMessage, lastMatchingMsg execId msgs ≠ some m) ∧
    (∀ (i : Nat) (e : PollEvent) (msgs : List SQSMessage),
      i < (waitForResponse decode execId tm events).consumed →
      events[i]? = some e → e.fetch = FetchResult.batch msgs → m ∈ msgs →
      SQSAction.release m.receiptHandle ∈
        (waitForResponse decode execId tm events).actions) ∧
    (((allMessages events).map SQSMessage.receiptHandle).Nodup →
      m ∈ allMessages events →
      SQSAction.delete m.receiptHandle ∉
        (waitForResponse decode execId tm events).actions) := by
  have hid : execIdOf m = none := by
    unfold execIdOf
    rcases hattr with h | ⟨attrs, h1, h2⟩ | ⟨attrs, entry, h1, h2, h3⟩
    · rw [h]
    · rw [h1]
      simp [h2]
    · rw [h1]
      simp [h2, h3]
  have hnm : execIdOf m ≠ some execId := by
    rw [hid]
    simp
  unfold waitForResponse
  refine ⟨hid, ?_, ?_, ?_⟩
  · intro msgs h
    exact hnm (lastMatchingMsg_spec execId msgs m h).2
  · intro i e msgs hi hget hf hmem
    exact waitLoop_releases decode execId (60 * tm) events 0 (1 / 2) i e msgs m
      hi hget hf hmem hnm
  · intro hnodup hmem
    exact waitLoop_no_delete_of_nonmatching decode execId (60 * tm) events 0
      (1 / 2) m hnodup hmem hnm

/-- Claim C10 witness: a message with no `MessageAttributes` (handle 9),
while waiting for `"X"`, has id `none`, is released from the consumed
batch, and is never deleted. -/
theorem claim_C10_witness :
    execIdOf c10M = none ∧
    SQSAction.release 9 ∈ (waitForResponse c10Decode "X" 1 c10Events).actions ∧
    SQSAction.delete 9 ∉ (waitForResponse c10Decode "X" 1 c10Events).actions :=
  ⟨(claim_C10 c10Decode "X" 1 c10Events c10M (Or.inl rfl)).1,
   (claim_C10 c10Decode "X" 1 c10Events c10M (Or.inl rfl)).2.2.1 0
     ⟨.batch [c10M], 1, []⟩ [c10M]
     (by
       norm_num [waitForResponse, waitLoop, pollStep, scanBatch, isMatch,
         execIdOf, c10Events, c10M, c10Decode]
       decide)
     rfl rfl (by decide),
   (claim_C10 c10Decode "X" 1 c10Events c10M (Or.inl rfl)).2.2.2 (by decide)
     (by decide)⟩
